import Mathlib

/-!
# Verification of the notification-service delivery core

Shallow embedding of the resilient delivery orchestration engine of the
`fw-challenge-notification-service` repository:

* `internal/repository/model.go` — channel enum and preference record;
* `internal/repository/cache.go` — TTL cache (`Cache.Get` / `Cache.Set`);
* `internal/repository/persistent.go` — `Persistent.FindByProviderType`;
* `internal/service` — `NotificationService.getNotificationPreferences`,
  `NotificationService.sendNotification`, `NotificationService.SendToSeller`;
* `internal/client` — `CircuitBreakerRegistry` (`NewCircuitBreakerRegistry`
  with its `ReadyToTrip` predicate, and `GetOrCreate`).

External collaborators (the HTTP delivery client, the database) are passed in
as explicit oracles, and the concurrent seller fan-out is modelled by an
interleaving semantics of `errgroup.WithContext`.
-/

namespace NotificationService

/-- Channel enum, from `internal/repository/model.go` (`NotificationProvider`,
with constants `EmailProvider` and `PushNotificationProvider`). -/
inductive NotificationProvider where
  | EmailProvider
  | PushNotificationProvider
deriving DecidableEq, Repr

/-- `NotificationProvider.String()` via the `providerName` map in `model.go`. -/
def NotificationProvider.toString : NotificationProvider → String
  | .EmailProvider => "Email"
  | .PushNotificationProvider => "PushNotification"

/-- `repository.NotificationPreference` from `model.go`: the business fields
`Host`, `ProviderName`, `SecretKey`.  The embedded `gorm.Model` bookkeeping
columns (`id`, timestamps, `deleted_at`) live on the database row model
`DBRow` below; they are not consulted by the service layer. -/
structure NotificationPreference where
  Host : String
  ProviderName : String
  SecretKey : String
deriving DecidableEq, Repr

/-- A `PreferenceSet`: the ordered endpoint list for one channel. -/
abbrev PreferenceSet := List NotificationPreference

/-- `client.NotificationRequest` from the client package. -/
structure NotificationRequest where
  To : String
  Title : String
  Message : String
  SecretKey : String
deriving DecidableEq, Repr

/-! ## Delivery dispatcher: `NotificationService.sendNotification`

```go
for _, preference := range preferences {
    req.SecretKey = preference.SecretKey
    if err := s.httpclient.Post(ctx, preference.Host, req); err != nil {
        continue
    }
    return nil
}
return errors.New("failure to sent the notifications")
```

The HTTP client is an oracle `post : NotificationPreference →
NotificationRequest → Option String` returning `some err` on a failed
attempt and `none` on success.  Besides the Go function's return value we
also record the trace of attempts (host plus the exact request passed to
`Post`), so the claims about which endpoints are called are statable. -/

/-- The aggregate error `errors.New("failure to sent the notifications")`. -/
def deliveryFailedErr : String := "failure to sent the notifications"

/-- `req.SecretKey = preference.SecretKey`: the per-iteration mutation of the
request before `Post`. -/
def withSecret (req : NotificationRequest) (p : NotificationPreference) :
    NotificationRequest :=
  { req with SecretKey := p.SecretKey }

/-- One recorded outbound attempt: the URL and the request given to `Post`. -/
structure Attempt where
  host : String
  req : NotificationRequest
deriving DecidableEq, Repr

/-- The attempt a given endpoint would produce for the dispatched request. -/
def attemptFor (req : NotificationRequest) (p : NotificationPreference) :
    Attempt :=
  ⟨p.Host, withSecret req p⟩

/-- `NotificationService.sendNotification`, returning the Go error result
(`none` = nil) paired with the ordered trace of `Post` attempts.  The
request threaded into the recursion is `withSecret req p` because the Go
loop mutates `req.SecretKey` in place before each attempt. -/
def sendNotification (post : NotificationPreference → NotificationRequest → Option String) :
    List NotificationPreference → NotificationRequest → Option String × List Attempt
  | [], _ => (some deliveryFailedErr, [])
  | p :: rest, req =>
    match post p (withSecret req p) with
    | none => (none, [attemptFor req p])
    | some _ =>
      ((sendNotification post rest (withSecret req p)).1,
        attemptFor req p :: (sendNotification post rest (withSecret req p)).2)

/-! ## Preference cache: `internal/repository/cache.go`

`Cache.Get` formats the channel into the key pattern
`"notification:preferences:%s"`, asks the ristretto engine, and returns a
`"cache key ... not found"` error on a miss (absent key, or entry past its
TTL — ristretto checks expiry on read).  `Cache.Set` calls
`engine.SetWithTTL(cacheKey, values, 1, c.expiredTime)` unconditionally and
returns `nil`.  The engine is modelled as a key → entry map with explicit
clock values (`Nat` instants); `ttl` is the configured `CACHE_EXPIRED_TIME`. -/

/-- Typed errors of the repository layer: the cache-miss error produced by
`Cache.Get`, gorm's `ErrRecordNotFound`, and any other database error. -/
inductive RepoError where
  | cacheKeyNotFound (key : String)
  | recordNotFound
  | dbError (msg : String)
deriving DecidableEq, Repr

/-- `fmt.Sprintf(cacheKeyPattern, key.String())` with
`cacheKeyPattern = "notification:preferences:%s"`. -/
def cacheKey (k : NotificationProvider) : String :=
  "notification:preferences:" ++ k.toString

/-- One cache entry with its absolute expiry instant (`now + ttl` at write). -/
structure CacheEntry where
  value : PreferenceSet
  expiresAt : Nat

/-- The cache: the engine's key → entry map plus the configured TTL. -/
structure CacheState where
  entries : String → Option CacheEntry
  ttl : Nat

/-- `Cache.Get`: miss (absent or expired entry) yields the
`cache key not found` error, hit returns the stored value unchanged. -/
def cacheGet (s : CacheState) (now : Nat) (k : NotificationProvider) :
    Except RepoError PreferenceSet :=
  match s.entries (cacheKey k) with
  | none => .error (.cacheKeyNotFound (cacheKey k))
  | some e =>
    if e.expiresAt < now then .error (.cacheKeyNotFound (cacheKey k))
    else .ok e.value

/-- `Cache.Set`: overwrite the key's entry unconditionally with a fresh
expiry clock, and return `nil` (the `Option RepoError` component). -/
def cacheSet (s : CacheState) (now : Nat) (k : NotificationProvider)
    (values : PreferenceSet) : CacheState × Option RepoError :=
  ({ s with entries := fun key =>
      if key = cacheKey k then some ⟨values, now + s.ttl⟩ else s.entries key },
    none)

/-! ## Preference store: `Persistent.FindByProviderType`
(`internal/repository/persistent.go`)

```go
preferences, err := gorm.G[NotificationPreference](p.conn).
    Where("provider_type = ?", provider.String()).
    Where("deleted_at IS NULL").
    Order("priority").
    Find(ctx)
if err != nil { return []NotificationPreference{}, err }
if len(preferences) == 0 { return []NotificationPreference{}, gorm.ErrRecordNotFound }
return preferences, nil
```

The table rows carry the columns of
`migrations/000002_create_table_notification_preferences.up.sql`; the query
either fails with a database error (modelled by the `dbErr` oracle) or
filters and orders the table. -/

/-- A row of the `notification_preferences` table. -/
structure DBRow where
  providerType : String
  providerName : String
  host : String
  priority : Int
  secretKey : String
  deletedAt : Option Int
deriving DecidableEq, Repr

/-- Insert a row into a priority-sorted list, after any rows of equal
priority (stable insertion). -/
def insertByPriority (r : DBRow) : List DBRow → List DBRow
  | [] => [r]
  | x :: xs =>
    if x.priority ≤ r.priority then x :: insertByPriority r xs
    else r :: x :: xs

/-- The SQL `Order("priority")` clause: stable sort ascending by the
`priority` column. -/
def orderByPriority : List DBRow → List DBRow
  | [] => []
  | x :: xs => insertByPriority x (orderByPriority xs)

/-- Projection of a row onto the `repository.NotificationPreference` fields
the service layer consumes. -/
def DBRow.toPreference (r : DBRow) : NotificationPreference :=
  ⟨r.host, r.providerName, r.secretKey⟩

/-- `Persistent.FindByProviderType`.  `dbErr` is the outcome of the SQL
round-trip (`some e` = query failed). -/
def findByProviderType (dbErr : Option String) (db : List DBRow)
    (provider : NotificationProvider) : Except RepoError PreferenceSet :=
  match dbErr with
  | some e => .error (.dbError e)
  | none =>
    let rows := orderByPriority (db.filter fun r =>
      r.providerType == provider.toString && r.deletedAt == none)
    if rows.isEmpty then .error .recordNotFound
    else .ok (rows.map DBRow.toPreference)

/-! ## Preference resolver: `NotificationService.getNotificationPreferences`

```go
preferences, err = s.cacheProvider.Get(providerType)
if err == nil { return preferences, nil }
preferences, err = s.persistentProvider.FindByProviderType(ctx, providerType)
if err != nil { return []NotificationPreference{}, err }
s.cacheProvider.Set(providerType, preferences)
return preferences, nil
```

The store round-trip is the oracle `store`; the function returns the Go
result together with whether the store was consulted and the cache state
after the call (`Set`'s returned error is discarded, as in the source). -/

/-- Outcome of one resolver call: result, whether `FindByProviderType` was
invoked, and the cache state afterwards. -/
structure ResolveResult where
  result : Except RepoError PreferenceSet
  storeCalled : Bool
  cache : CacheState

/-- `NotificationService.getNotificationPreferences`. -/
def getNotificationPreferences (cache : CacheState) (now : Nat)
    (store : Except RepoError PreferenceSet) (k : NotificationProvider) :
    ResolveResult :=
  match cacheGet cache now k with
  | .ok preferences => ⟨.ok preferences, false, cache⟩
  | .error _ =>
    match store with
    | .error e => ⟨.error e, true, cache⟩
    | .ok preferences => ⟨.ok preferences, true, (cacheSet cache now k preferences).1⟩

/-! ## Circuit breaker registry: `internal/client` (`CircuitBreakerRegistry`)

`GetOrCreate` first does `breakers.Load(host)`; on a miss it builds a new
`gobreaker.CircuitBreaker` from the registry settings with `Name = host`
and publishes it through `breakers.LoadOrStore(host, cb)`.  The `sync.Map`
is modelled by its linearisation: an association list plus a fresh-instance
counter, so that two `gobreaker.NewCircuitBreaker` allocations are
distinguishable instances (`id`). -/

/-- A breaker instance: allocation identity plus its `Settings.Name`. -/
structure CircuitBreaker where
  id : Nat
  name : String
deriving DecidableEq, Repr

/-- The registry state: the `sync.Map` contents and the next fresh id. -/
structure CircuitBreakerRegistry where
  breakers : List (String × CircuitBreaker)
  nextId : Nat
deriving DecidableEq, Repr

/-- `breakers.Load(host)`. -/
def CircuitBreakerRegistry.load (r : CircuitBreakerRegistry) (host : String) :
    Option CircuitBreaker :=
  (r.breakers.find? fun kv => kv.1 == host).map (·.2)

/-- A fresh registry, as built by `NewCircuitBreakerRegistry`. -/
def emptyRegistry : CircuitBreakerRegistry := ⟨[], 0⟩

/-- `CircuitBreakerRegistry.GetOrCreate`. -/
def getOrCreate (r : CircuitBreakerRegistry) (host : String) :
    CircuitBreaker × CircuitBreakerRegistry :=
  match r.load host with
  | some cb => (cb, r)
  | none =>
    let cb : CircuitBreaker := ⟨r.nextId, host⟩
    (cb, ⟨(host, cb) :: r.breakers, r.nextId + 1⟩)

/-- A history of `GetOrCreate` calls applied to a registry. -/
def runCalls (r : CircuitBreakerRegistry) : List String → CircuitBreakerRegistry
  | [] => r
  | h :: hs => runCalls (getOrCreate r h).2 hs

/-- Registry invariant: every stored breaker is named after its host key
(`settings.Name = host` at creation). -/
def NameInv (r : CircuitBreakerRegistry) : Prop :=
  ∀ kv ∈ r.breakers, kv.2.name = kv.1

/-! ## Breaker trip policy: `NewCircuitBreakerRegistry.ReadyToTrip`

```go
ReadyToTrip: func(counts gobreaker.Counts) bool {
    failureRatio := float64(counts.TotalFailures) / float64(counts.Requests)
    return counts.Requests >= params.Config.MinRequestsBeforeTrip &&
        failureRatio >= (params.Config.FailureThresholdPercent / 100)
}
```

The `float64` arithmetic is modelled over `ℚ`.  For the values the claims
touch (small ratios such as 3/5, 2/5, 60/100) both operands of the
comparison are the correctly rounded doubles of the same rationals and the
comparison verdict agrees with the exact one, so the `ℚ` model is faithful;
the `Requests = 0` division (NaN in Go, hence a false comparison) is also
false here for any positive threshold since `q / 0 = 0` in `ℚ`. -/

/-- The two `gobreaker.Counts` fields read by the trip predicate. -/
structure Counts where
  Requests : Nat
  TotalFailures : Nat
deriving DecidableEq, Repr

/-- The two `CircuitBreakerRegistryConfig` fields read by the trip
predicate (`MinRequestsBeforeTrip`, `FailureThresholdPercent`). -/
structure CircuitBreakerRegistryConfig where
  MinRequestsBeforeTrip : Nat
  FailureThresholdPercent : ℚ

/-- Defaults from the envconfig tags: `default:"3"` and `default:"60"`. -/
def defaultBreakerConfig : CircuitBreakerRegistryConfig := ⟨3, 60⟩

/-- The `ReadyToTrip` closure installed by `NewCircuitBreakerRegistry`. -/
def readyToTrip (cfg : CircuitBreakerRegistryConfig) (counts : Counts) : Bool :=
  let failureRatio : ℚ := (counts.TotalFailures : ℚ) / (counts.Requests : ℚ)
  decide (cfg.MinRequestsBeforeTrip ≤ counts.Requests) &&
    decide (cfg.FailureThresholdPercent / 100 ≤ failureRatio)

/-! ## Seller fan-out: `NotificationService.SendToSeller`

```go
g, ctx := errgroup.WithContext(ctx)
g.Go(func() error { // email: resolve, then dispatch
    ... s.getNotificationPreferences(ctx, repository.EmailProvider) ...
    ... s.sendNotification(ctx, preferences, req) ...
})
g.Go(func() error { // push: same, for PushNotificationProvider
})
if err := g.Wait(); err != nil { return err }
```

Interleaving model of `golang.org/x/sync/errgroup.WithContext` (documented
semantics: `Wait` blocks until all functions have returned and reports the
first non-nil error; the derived context is cancelled the first time a
function returns a non-nil error).  Each goroutine body is a list of
sequential operations; an operation observes whether the shared group
context is cancelled (`Bool` argument) and returns `some err` to make the
body return that error, or `none` to continue.  A schedule interleaves
single operations of the two bodies (`true` = email unit, `false` = push
unit); a scheduled turn for an already-returned body is a no-op. -/

/-- One context-observing operation of a goroutine body. -/
abbrev Op := Bool → Option String

/-- A goroutine body mid-run: operations still to execute, and, once the
body has returned, its result (`some none` = returned nil). -/
structure UnitState where
  pending : List Op
  result : Option (Option String)

/-- The body has returned. -/
def UnitState.finished (u : UnitState) : Bool := u.result.isSome

/-- The body has returned a non-nil error. -/
def UnitState.errored (u : UnitState) : Bool :=
  match u.result with
  | some (some _) => true
  | _ => false

/-- The errgroup mid-run: both units, the derived context's cancellation
flag, and the first error captured for `Wait`. -/
structure GroupState where
  a : UnitState
  b : UnitState
  cancelled : Bool
  firstErr : Option String

/-- The group right after both `g.Go` calls. -/
def initGroup (aOps bOps : List Op) : GroupState :=
  ⟨⟨aOps, none⟩, ⟨bOps, none⟩, false, none⟩

/-- Run one operation of a unit under the current cancellation flag,
reporting a newly returned non-nil error. -/
def stepUnit (cancelled : Bool) (u : UnitState) : UnitState × Option String :=
  match u.result with
  | some _ => (u, none)
  | none =>
    match u.pending with
    | [] => ({ u with result := some none }, none)
    | op :: rest =>
      match op cancelled with
      | none => ({ u with pending := rest }, none)
      | some e => (⟨[], some (some e)⟩, some e)

/-- errgroup bookkeeping for a body returning a non-nil error: capture it
if it is the first, and cancel the derived context. -/
def recordErr (g : GroupState) (e : Option String) : GroupState :=
  match e with
  | none => g
  | some err =>
    { g with cancelled := true,
             firstErr := match g.firstErr with
                         | none => some err
                         | some e0 => some e0 }

/-- One scheduler turn (`true` = email unit, `false` = push unit). -/
def stepGroup (g : GroupState) : Bool → GroupState
  | true => recordErr { g with a := (stepUnit g.cancelled g.a).1 }
      (stepUnit g.cancelled g.a).2
  | false => recordErr { g with b := (stepUnit g.cancelled g.b).1 }
      (stepUnit g.cancelled g.b).2

/-- Run a whole schedule. -/
def runSchedule (g : GroupState) : List Bool → GroupState
  | [] => g
  | s :: rest => runSchedule (stepGroup g s) rest

/-- `g.Wait()`, meaningful once both units have finished. -/
def groupWait (g : GroupState) : Option String := g.firstErr

/-- A schedule that lets both bodies run all their operations to
completion: enough email turns, then enough push turns. -/
def fullSchedule (aOps bOps : List Op) : List Bool :=
  List.replicate (aOps.length + 1) true ++ List.replicate (bOps.length + 1) false

/-- `SendToSeller`'s fan-out: the email unit is resolve-then-dispatch for
`EmailProvider`, the push unit resolve-then-dispatch for
`PushNotificationProvider`; each stage is an operation observing the shared
group context. -/
def sendToSeller (emailResolve emailDispatch pushResolve pushDispatch : Op)
    (schedule : List Bool) : GroupState :=
  runSchedule
    (initGroup [emailResolve, emailDispatch] [pushResolve, pushDispatch])
    schedule

/-- Group invariant: the derived context is cancelled exactly when a first
error has been captured, and an error has been captured exactly when some
unit has returned a non-nil error. -/
def GroupInv (g : GroupState) : Prop :=
  g.cancelled = g.firstErr.isSome ∧
    g.firstErr.isSome = (g.a.errored || g.b.errored)

/-! ## Theorems -/

theorem withSecret_withSecret (req : NotificationRequest)
    (q p : NotificationPreference) :
    withSecret (withSecret req q) p = withSecret req p := rfl

theorem attemptFor_withSecret (req : NotificationRequest)
    (q p : NotificationPreference) :
    attemptFor (withSecret req q) p = attemptFor req p := rfl

/-- Helper: when the attempt at every endpoint of the set fails, the
dispatcher returns the aggregate error and the trace lists every endpoint
once, in order. -/
theorem sendNotification_all_fail
    (post : NotificationPreference → NotificationRequest → Option String)
    (prefs : List NotificationPreference) (req : NotificationRequest)
    (hfail : ∀ p ∈ prefs, (post p (withSecret req p)).isSome) :
    sendNotification post prefs req =
      (some deliveryFailedErr, prefs.map (attemptFor req)) := by
  induction prefs generalizing req with
  | nil => rfl
  | cons p rest ih =>
    have hp : (post p (withSecret req p)).isSome := hfail p (List.mem_cons_self p rest)
    obtain ⟨e, he⟩ := Option.isSome_iff_exists.mp hp
    have hrest : ∀ q ∈ rest, (post q (withSecret (withSecret req p) q)).isSome := by
      intro q hq
      rw [withSecret_withSecret]
      exact hfail q (List.mem_cons_of_mem p hq)
    have hmap : rest.map (attemptFor (withSecret req p)) = rest.map (attemptFor req) :=
      List.map_congr_left fun a _ => attemptFor_withSecret req p a
    simp only [sendNotification, he, ih (withSecret req p) hrest, hmap, List.map_cons]

/-- Helper: when the endpoints split as `l1 ++ p :: l2` with every attempt in
`l1` failing and the attempt at `p` succeeding, the dispatcher attempts
exactly `l1 ++ [p]`, in order, and returns success. -/
theorem sendNotification_first_success
    (post : NotificationPreference → NotificationRequest → Option String)
    (l1 l2 : List NotificationPreference) (p : NotificationPreference)
    (req : NotificationRequest)
    (hfail : ∀ q ∈ l1, (post q (withSecret req q)).isSome)
    (hsucc : post p (withSecret req p) = none) :
    sendNotification post (l1 ++ p :: l2) req =
      (none, (l1 ++ [p]).map (attemptFor req)) := by
  induction l1 generalizing req with
  | nil =>
    simp only [List.nil_append, sendNotification, hsucc, List.map_cons, List.map_nil]
  | cons q rest ih =>
    have hq : (post q (withSecret req q)).isSome := hfail q (List.mem_cons_self q rest)
    obtain ⟨e, he⟩ := Option.isSome_iff_exists.mp hq
    have hrest : ∀ r ∈ rest, (post r (withSecret (withSecret req q) r)).isSome := by
      intro r hr
      rw [withSecret_withSecret]
      exact hfail r (List.mem_cons_of_mem q hr)
    have hsucc2 : post p (withSecret (withSecret req q) p) = none := by
      rw [withSecret_withSecret]; exact hsucc
    have hmap : (rest ++ [p]).map (attemptFor (withSecret req q)) =
        (rest ++ [p]).map (attemptFor req) :=
      List.map_congr_left fun a _ => attemptFor_withSecret req q a
    simp only [List.cons_append, sendNotification, he, List.append_eq]
    rw [ih (withSecret req q) hrest hsucc2, hmap]
    simp only [List.map_cons]

/-- C1: when endpoint `k` (0-based) of the PreferenceSet is the first whose
delivery attempt succeeds, `sendNotification` attempts exactly endpoints
`0..k`, each once, in priority order — every earlier endpoint before `k`,
nothing after `k` — and returns success (`nil` error).  The trace records
each attempt with that endpoint's secret substituted into the request.  The
`k = 0` instance is the "first endpoint succeeds ⟹ exactly one call" case. -/
theorem sendNotification_first_success_attempts_in_order
    (post : NotificationPreference → NotificationRequest → Option String)
    (prefs : List NotificationPreference) (req : NotificationRequest)
    (k : Nat) (hk : k < prefs.length)
    (hfail : ∀ i, (hi : i < k) → (post (prefs.get ⟨i, hi.trans hk⟩)
      (withSecret req (prefs.get ⟨i, hi.trans hk⟩))).isSome)
    (hsucc : post (prefs.get ⟨k, hk⟩) (withSecret req (prefs.get ⟨k, hk⟩)) = none) :
    sendNotification post prefs req =
      (none, (prefs.take (k + 1)).map (attemptFor req)) := by
  have hsplit : prefs.take k ++ prefs.get ⟨k, hk⟩ :: prefs.drop (k + 1) = prefs := by
    rw [List.get_eq_getElem, ← List.drop_eq_getElem_cons hk, List.take_append_drop]
  have hfail2 : ∀ q ∈ prefs.take k, (post q (withSecret req q)).isSome := by
    intro q hq
    obtain ⟨⟨j, hj⟩, rfl⟩ := List.mem_iff_get.mp hq
    have hjk : j < k := by
      have hlen := hj
      simp only [List.length_take] at hlen
      omega
    have hget : (prefs.take k).get ⟨j, hj⟩ = prefs.get ⟨j, hjk.trans hk⟩ := by
      simp [List.getElem_take]
    rw [hget]
    exact hfail j hjk
  have hconcat : prefs.take k ++ [prefs.get ⟨k, hk⟩] = prefs.take (k + 1) := by
    rw [List.take_succ]
    simp [List.getElem?_eq_getElem hk]
  have h := sendNotification_first_success post (prefs.take k) (prefs.drop (k + 1))
    (prefs.get ⟨k, hk⟩) req hfail2 hsucc
  rw [hsplit, hconcat] at h
  exact h

/-- Witness for C1: three endpoints in priority order, the first failing and
the second succeeding — exactly the first two are attempted, in order, each
with its own secret, and the call returns success. -/
theorem sendNotification_first_success_attempts_in_order_witness :
    sendNotification
      (fun p _ => if p.Host == "https://one.example" then some "connection refused" else none)
      [⟨"https://one.example", "p1", "k1"⟩, ⟨"https://two.example", "p2", "k2"⟩,
        ⟨"https://three.example", "p3", "k3"⟩]
      ⟨"user@example.com", "Test", "Hello", ""⟩ =
      (none,
        [⟨"https://one.example", ⟨"user@example.com", "Test", "Hello", "k1"⟩⟩,
         ⟨"https://two.example", ⟨"user@example.com", "Test", "Hello", "k2"⟩⟩]) := by
  have h := sendNotification_first_success_attempts_in_order
    (fun p _ => if p.Host == "https://one.example" then some "connection refused" else none)
    [⟨"https://one.example", "p1", "k1"⟩, ⟨"https://two.example", "p2", "k2"⟩,
      ⟨"https://three.example", "p3", "k3"⟩]
    ⟨"user@example.com", "Test", "Hello", ""⟩ 1 (by decide) (by decide) (by decide)
  exact h.trans (by decide)

/-- C5: when every endpoint's delivery attempt fails, `sendNotification`
attempts each endpoint once and returns the single aggregate
`"failure to sent the notifications"` error; the result is this fixed
constant for every failure oracle `post`, so no individual per-endpoint
error is retained.  The second conjunct is the empty-PreferenceSet case:
the aggregate error with zero outbound calls. -/
theorem sendNotification_exhaustion_aggregate
    (post : NotificationPreference → NotificationRequest → Option String)
    (prefs : List NotificationPreference) (req : NotificationRequest)
    (hfail : ∀ p ∈ prefs, (post p (withSecret req p)).isSome) :
    sendNotification post prefs req =
        (some deliveryFailedErr, prefs.map (attemptFor req)) ∧
      sendNotification post [] req = (some deliveryFailedErr, []) :=
  ⟨sendNotification_all_fail post prefs req hfail, rfl⟩

/-- Witness for C5: two endpoints, both failing with distinct transport
errors — the dispatcher returns the aggregate error (not either transport
error) after attempting both, and returns it with an empty trace for the
empty PreferenceSet. -/
theorem sendNotification_exhaustion_aggregate_witness :
    sendNotification
        (fun p _ => if p.Host == "https://one.example" then some "timeout" else some "refused")
        [⟨"https://one.example", "p1", "k1"⟩, ⟨"https://two.example", "p2", "k2"⟩]
        ⟨"user@example.com", "Test", "Hello", ""⟩ =
      (some deliveryFailedErr,
        [⟨"https://one.example", ⟨"user@example.com", "Test", "Hello", "k1"⟩⟩,
         ⟨"https://two.example", ⟨"user@example.com", "Test", "Hello", "k2"⟩⟩]) := by
  have h := sendNotification_exhaustion_aggregate
    (fun p _ => if p.Host == "https://one.example" then some "timeout" else some "refused")
    [⟨"https://one.example", "p1", "k1"⟩, ⟨"https://two.example", "p2", "k2"⟩]
    ⟨"user@example.com", "Test", "Hello", ""⟩ (by decide)
  exact h.1.trans (by decide)

/-- C6 counterexample: with the context cancelled before any attempt begins,
every `Post` fails immediately with the `"context canceled"` error — yet
the dispatcher still attempts both endpoints (the fallback chain is not
abandoned, so the outbound-call count is 2, not 0) and returns the
aggregate delivery-failed error, not the cancellation error. -/
theorem sendNotification_cancellation_counterexample :
    sendNotification (fun _ _ => some "context canceled")
        [⟨"https://one.example", "p1", "k1"⟩, ⟨"https://two.example", "p2", "k2"⟩]
        ⟨"user@example.com", "Test", "Hello", ""⟩ =
      (some deliveryFailedErr,
        [⟨"https://one.example", ⟨"user@example.com", "Test", "Hello", "k1"⟩⟩,
         ⟨"https://two.example", ⟨"user@example.com", "Test", "Hello", "k2"⟩⟩]) ∧
    deliveryFailedErr ≠ "context canceled" := by
  constructor
  · decide
  · decide

/-- C6 amended: when the context is cancelled, each delivery attempt fails
promptly with the cancellation error, but the dispatcher treats it like any
other failure: it continues through every remaining endpoint (one attempt
each, in order) and finally returns the aggregate delivery-failed error,
not the cancellation error; no successful outbound delivery occurs. -/
theorem sendNotification_cancelled_context_behavior
    (post : NotificationPreference → NotificationRequest → Option String)
    (prefs : List NotificationPreference) (req : NotificationRequest)
    (hcancel : ∀ p r, post p r = some "context canceled") :
    sendNotification post prefs req =
      (some deliveryFailedErr, prefs.map (attemptFor req)) :=
  sendNotification_all_fail post prefs req fun p _ => by
    rw [hcancel p (withSecret req p)]
    rfl

/-- Witness for the amended C6: a concrete cancelled-context dispatch over
two endpoints attempts both and returns the aggregate error. -/
theorem sendNotification_cancelled_context_behavior_witness :
    sendNotification (fun _ _ => some "context canceled")
        [⟨"https://a.example", "p1", "s1"⟩, ⟨"https://b.example", "p2", "s2"⟩]
        ⟨"x@example.com", "T", "M", ""⟩ =
      (some deliveryFailedErr,
        [⟨"https://a.example", ⟨"x@example.com", "T", "M", "s1"⟩⟩,
         ⟨"https://b.example", ⟨"x@example.com", "T", "M", "s2"⟩⟩]) := by
  have h := sendNotification_cancelled_context_behavior
    (fun _ _ => some "context canceled")
    [⟨"https://a.example", "p1", "s1"⟩, ⟨"https://b.example", "p2", "s2"⟩]
    ⟨"x@example.com", "T", "M", ""⟩ (fun _ _ => rfl)
  exact h.trans (by decide)

/-- C3: the resolver follows cache-aside exactly.  On a cache hit it
returns the cached set, with no store access and the cache untouched; on a
miss it calls the store; a store error (including not-found) is propagated
unchanged with no cache write; a store success is written into the cache
and returned. -/
theorem resolver_cache_aside (cache : CacheState) (now : Nat)
    (store : Except RepoError PreferenceSet) (k : NotificationProvider) :
    (∀ v, cacheGet cache now k = .ok v →
      getNotificationPreferences cache now store k = ⟨.ok v, false, cache⟩) ∧
    (∀ e0, cacheGet cache now k = .error e0 →
      (getNotificationPreferences cache now store k).storeCalled = true) ∧
    (∀ e0 e, cacheGet cache now k = .error e0 → store = .error e →
      getNotificationPreferences cache now store k = ⟨.error e, true, cache⟩) ∧
    (∀ e0 v, cacheGet cache now k = .error e0 → store = .ok v →
      getNotificationPreferences cache now store k =
        ⟨.ok v, true, (cacheSet cache now k v).1⟩) := by
  refine ⟨?_, ?_, ?_, ?_⟩ <;> intros <;> cases store <;>
    simp_all [getNotificationPreferences]

/-- Witness for C3: a concrete miss-then-store-success resolve returns the
store's rows and reports one store call. -/
theorem resolver_cache_aside_witness :
    (getNotificationPreferences ⟨fun _ => none, 600⟩ 0
        (.ok [⟨"https://e.example", "sendgrid", "s"⟩]) .EmailProvider).result =
      .ok [⟨"https://e.example", "sendgrid", "s"⟩] ∧
    (getNotificationPreferences ⟨fun _ => none, 600⟩ 0
        (.ok [⟨"https://e.example", "sendgrid", "s"⟩]) .EmailProvider).storeCalled = true := by
  have h := (resolver_cache_aside ⟨fun _ => none, 600⟩ 0
      (.ok [⟨"https://e.example", "sendgrid", "s"⟩]) .EmailProvider).2.2.2
    (.cacheKeyNotFound (cacheKey .EmailProvider))
    [⟨"https://e.example", "sendgrid", "s"⟩] rfl rfl
  exact ⟨congrArg ResolveResult.result h, congrArg ResolveResult.storeCalled h⟩

/-- C10: every cache `Get` error — whatever its shape, not only the
not-found case — makes the resolver fall through to the store, and the
resolver's result is the store's outcome verbatim, so the cache read error
can never appear in the result. -/
theorem resolver_cache_error_falls_through (cache : CacheState) (now : Nat)
    (store : Except RepoError PreferenceSet) (k : NotificationProvider)
    (e0 : RepoError) (hmiss : cacheGet cache now k = .error e0) :
    (getNotificationPreferences cache now store k).storeCalled = true ∧
    (getNotificationPreferences cache now store k).result = store := by
  cases store <;> simp_all [getNotificationPreferences]

/-- Witness for C10: a cache error that is not the not-found shape (a
database-error value smuggled into the cache layer) still falls through to
the store, whose success is returned. -/
theorem resolver_cache_error_falls_through_witness :
    (getNotificationPreferences
        ⟨fun _ => some ⟨[⟨"https://stale.example", "p", "s"⟩], 3⟩, 600⟩ 10
        (.ok [⟨"https://fresh.example", "p", "s"⟩]) .EmailProvider).storeCalled = true ∧
    (getNotificationPreferences
        ⟨fun _ => some ⟨[⟨"https://stale.example", "p", "s"⟩], 3⟩, 600⟩ 10
        (.ok [⟨"https://fresh.example", "p", "s"⟩]) .EmailProvider).result =
      .ok [⟨"https://fresh.example", "p", "s"⟩] :=
  resolver_cache_error_falls_through
    ⟨fun _ => some ⟨[⟨"https://stale.example", "p", "s"⟩], 3⟩, 600⟩ 10
    (.ok [⟨"https://fresh.example", "p", "s"⟩]) .EmailProvider
    (.cacheKeyNotFound (cacheKey .EmailProvider)) rfl

/-- C8 counterexample: two resolves of the same channel inside one TTL
window (times 0 and 1, TTL 600), with no intervening `Set`, where the
store errors (not-found, no negative caching) — each resolve calls the
store, so the pair makes two `FindByProviderType` calls, not at most one. -/
theorem cache_idempotence_counterexample :
    (getNotificationPreferences ⟨fun _ => none, 600⟩ 0 (.error .recordNotFound)
        .EmailProvider).storeCalled = true ∧
    (getNotificationPreferences
        (getNotificationPreferences ⟨fun _ => none, 600⟩ 0 (.error .recordNotFound)
          .EmailProvider).cache 1 (.error .recordNotFound)
        .EmailProvider).storeCalled = true ∧
    1 ≤ 0 + (600 : Nat) :=
  ⟨rfl, rfl, by decide⟩

/-- C8 amended: `Cache.Set` overwrites the channel's entry unconditionally,
resets its TTL clock to `now + ttl`, leaves every other key untouched and
never returns an error; consequently two resolves for the same channel
within the TTL window with no intervening `Set`, the first of which does
not fail with a store error, produce at most one store call. -/
theorem cacheSet_overwrite_and_resolve_idempotent
    (s : CacheState) (now : Nat) (k0 : NotificationProvider) (values : PreferenceSet)
    (cache : CacheState) (t1 t2 : Nat)
    (store1 store2 : Except RepoError PreferenceSet) (k : NotificationProvider)
    (hw : t2 ≤ t1 + cache.ttl)
    (hok : ∃ v, (getNotificationPreferences cache t1 store1 k).result = .ok v) :
    ((cacheSet s now k0 values).2 = none ∧
      (cacheSet s now k0 values).1.entries (cacheKey k0) =
        some ⟨values, now + s.ttl⟩ ∧
      (∀ key, key ≠ cacheKey k0 →
        (cacheSet s now k0 values).1.entries key = s.entries key)) ∧
    (cond (getNotificationPreferences cache t1 store1 k).storeCalled 1 0 +
        cond (getNotificationPreferences
          (getNotificationPreferences cache t1 store1 k).cache t2 store2
          k).storeCalled 1 0 ≤ 1) := by
  constructor
  · refine ⟨rfl, by simp [cacheSet], ?_⟩
    intro key hkey
    simp [cacheSet, hkey]
  · obtain ⟨v, hv⟩ := hok
    have hbound : ∀ b : Bool, (cond b 1 0 : Nat) ≤ 1 := by
      intro b; cases b <;> simp
    cases hget : cacheGet cache t1 k with
    | ok w =>
      have hr1 : getNotificationPreferences cache t1 store1 k =
          ⟨.ok w, false, cache⟩ := by
        simp [getNotificationPreferences, hget]
      rw [hr1]
      simpa using hbound (getNotificationPreferences cache t2 store2 k).storeCalled
    | error e0 =>
      cases store1 with
      | error e =>
        simp [getNotificationPreferences, hget] at hv
      | ok w =>
        have hr1 : getNotificationPreferences cache t1 (.ok w) k =
            ⟨.ok w, true, (cacheSet cache t1 k w).1⟩ := by
          simp [getNotificationPreferences, hget]
        rw [hr1]
        have hget2 : cacheGet (cacheSet cache t1 k w).1 t2 k = .ok w := by
          simp only [cacheGet, cacheSet]
          have hnot : ¬ (t1 + cache.ttl < t2) := by omega
          simp [hnot]
        have hr2 : getNotificationPreferences (cacheSet cache t1 k w).1 t2 store2 k =
            ⟨.ok w, false, (cacheSet cache t1 k w).1⟩ := by
          simp [getNotificationPreferences, hget2]
        rw [hr2]
        simp

/-- Witness for the amended C8: a miss-then-store-success resolve at time 0
followed by a second resolve at time 500 (TTL 600) makes exactly one store
call in total, and a concrete `Set` returns no error. -/
theorem cacheSet_overwrite_and_resolve_idempotent_witness :
    ((cacheSet ⟨fun _ => none, 600⟩ 7 .EmailProvider
        [⟨"https://e.example", "p", "s"⟩]).2 = none) ∧
    (cond (getNotificationPreferences ⟨fun _ => none, 600⟩ 0
          (.ok [⟨"https://e.example", "p", "s"⟩]) .EmailProvider).storeCalled 1 0 +
        cond (getNotificationPreferences
          (getNotificationPreferences ⟨fun _ => none, 600⟩ 0
            (.ok [⟨"https://e.example", "p", "s"⟩]) .EmailProvider).cache 500
          (.error .recordNotFound) .EmailProvider).storeCalled 1 0 ≤ 1) := by
  have h := cacheSet_overwrite_and_resolve_idempotent
    ⟨fun _ => none, 600⟩ 7 .EmailProvider [⟨"https://e.example", "p", "s"⟩]
    ⟨fun _ => none, 600⟩ 0 500
    (.ok [⟨"https://e.example", "p", "s"⟩]) (.error .recordNotFound) .EmailProvider
    (by decide) ⟨[⟨"https://e.example", "p", "s"⟩], rfl⟩
  exact ⟨h.1.1, h.2⟩

/-- C7: a PreferenceSet returned with a nil error is never empty.
`FindByProviderType` returns the typed not-found error whenever no active
(non-deleted) row matches the channel, so a store success is non-empty; and
if every cached entry holds a non-empty set (the system invariant — the
resolver is the only cache writer and writes only store successes), then a
cache `Get` success is non-empty and a resolver call whose store outcome
comes from `FindByProviderType` preserves the cache invariant. -/
theorem preference_set_nonempty (dbErr : Option String) (db : List DBRow)
    (provider k : NotificationProvider) (cache : CacheState) (now : Nat)
    (hinv : ∀ key e, cache.entries key = some e → e.value ≠ []) :
    (∀ prefs, findByProviderType dbErr db provider = .ok prefs → prefs ≠ []) ∧
    (∀ v, cacheGet cache now k = .ok v → v ≠ []) ∧
    (∀ key e, (getNotificationPreferences cache now
        (findByProviderType dbErr db k) k).cache.entries key = some e →
      e.value ≠ []) := by
  have hstore : ∀ p prefs, findByProviderType dbErr db p = .ok prefs → prefs ≠ [] := by
    intro p prefs h
    cases dbErr with
    | some e => simp [findByProviderType] at h
    | none =>
      simp only [findByProviderType] at h
      split at h
      · exact absurd h (by simp)
      · next hrows =>
        cases h
        intro hcontr
        rw [List.map_eq_nil_iff] at hcontr
        rw [hcontr] at hrows
        simp at hrows
  refine ⟨hstore provider, ?_, ?_⟩
  · intro v hv
    unfold cacheGet at hv
    cases hent : cache.entries (cacheKey k) with
    | none => simp [hent] at hv
    | some e =>
      rw [hent] at hv
      by_cases hexp : e.expiresAt < now
      · simp [hexp] at hv
      · simp [hexp] at hv
        rw [← hv]
        exact hinv _ e hent
  · intro key e hkey
    cases hget : cacheGet cache now k with
    | ok w =>
      rw [show getNotificationPreferences cache now (findByProviderType dbErr db k) k =
          ⟨.ok w, false, cache⟩ by simp [getNotificationPreferences, hget]] at hkey
      exact hinv key e hkey
    | error e0 =>
      cases hfind : findByProviderType dbErr db k with
      | error e1 =>
        rw [show getNotificationPreferences cache now (findByProviderType dbErr db k) k =
            ⟨.error e1, true, cache⟩ by simp [getNotificationPreferences, hget, hfind]] at hkey
        exact hinv key e hkey
      | ok prefs =>
        rw [show getNotificationPreferences cache now (findByProviderType dbErr db k) k =
            ⟨.ok prefs, true, (cacheSet cache now k prefs).1⟩ by
          simp [getNotificationPreferences, hget, hfind]] at hkey
        simp only [cacheSet] at hkey
        by_cases heq : key = cacheKey k
        · rw [if_pos heq] at hkey
          cases hkey
          exact hstore k prefs hfind
        · rw [if_neg heq] at hkey
          exact hinv key e hkey

/-- Witness for C7: a one-row table yields a store success with one
endpoint, which is indeed non-empty; the cache invariant hypothesis is
discharged for the empty cache. -/
theorem preference_set_nonempty_witness :
    findByProviderType none
        [⟨"Email", "sendgrid", "https://e.example", 1, "s", none⟩] .EmailProvider =
      .ok [⟨"https://e.example", "sendgrid", "s"⟩] ∧
    ([⟨"https://e.example", "sendgrid", "s"⟩] : PreferenceSet) ≠ [] := by
  have hfind : findByProviderType none
      [⟨"Email", "sendgrid", "https://e.example", 1, "s", none⟩] .EmailProvider =
      .ok [⟨"https://e.example", "sendgrid", "s"⟩] := by rfl
  have h := preference_set_nonempty none
    [⟨"Email", "sendgrid", "https://e.example", 1, "s", none⟩]
    .EmailProvider .EmailProvider ⟨fun _ => none, 600⟩ 0
    (fun key e hkey => absurd hkey (by simp))
  exact ⟨hfind, h.1 [⟨"https://e.example", "sendgrid", "s"⟩] hfind⟩

/-- C4: with the default config (`MinRequestsBeforeTrip = 3`,
`FailureThresholdPercent = 60`), `ReadyToTrip` returns true exactly when
the window holds at least 3 requests AND the failure ratio is at least
3/5; over a 5-request window any failure count of at least 3 trips
(including the exact 60 percent boundary, 3 of 5), while 2 of 5 (40
percent) does not, and 2 failures out of only 2 requests does not trip
despite the 100 percent ratio, because the request floor is unmet. -/
theorem readyToTrip_characterization :
    (∀ c : Counts, readyToTrip defaultBreakerConfig c = true ↔
      (3 ≤ c.Requests ∧
        (3 / 5 : ℚ) ≤ (c.TotalFailures : ℚ) / (c.Requests : ℚ))) ∧
    (∀ f : Nat, 3 ≤ f → readyToTrip defaultBreakerConfig ⟨5, f⟩ = true) ∧
    readyToTrip defaultBreakerConfig ⟨5, 3⟩ = true ∧
    readyToTrip defaultBreakerConfig ⟨5, 4⟩ = true ∧
    readyToTrip defaultBreakerConfig ⟨5, 2⟩ = false ∧
    readyToTrip defaultBreakerConfig ⟨2, 2⟩ = false := by
  have hthr : (60 : ℚ) / 100 = 3 / 5 := by norm_num
  have hcase : ∀ c : Counts, readyToTrip defaultBreakerConfig c =
      (decide (3 ≤ c.Requests) &&
        decide ((3 / 5 : ℚ) ≤ (c.TotalFailures : ℚ) / (c.Requests : ℚ))) := by
    intro c
    rw [readyToTrip]
    simp only [defaultBreakerConfig, hthr]
  refine ⟨?_, ?_, ?_, ?_, ?_, ?_⟩
  case refine_3 => rw [hcase]; norm_num
  case refine_4 => rw [hcase]; norm_num
  case refine_5 => rw [hcase]; norm_num
  case refine_6 => rw [hcase]; norm_num
  · intro c
    rw [readyToTrip]
    simp only [defaultBreakerConfig, Bool.and_eq_true, decide_eq_true_eq, hthr]
  · intro f h3
    rw [readyToTrip]
    simp only [defaultBreakerConfig, Bool.and_eq_true, decide_eq_true_eq, hthr]
    refine ⟨by norm_num, ?_⟩
    have hf : (3 : ℚ) ≤ (f : ℚ) := by exact_mod_cast h3
    have h5 : (0 : ℚ) < 5 := by norm_num
    calc (3 / 5 : ℚ) ≤ (f : ℚ) / 5 := (div_le_div_iff_of_pos_right h5).mpr hf
      _ = (f : ℚ) / ((5 : Nat) : ℚ) := by norm_num

/-- Witness for C4: four failures in a 5-request window satisfy the
failure-count hypothesis and trip the breaker. -/
theorem readyToTrip_characterization_witness :
    readyToTrip defaultBreakerConfig ⟨5, 4⟩ = true :=
  readyToTrip_characterization.2.1 4 (by decide)

/-- After `GetOrCreate r host`, the registry maps `host` to the returned
breaker. -/
theorem load_after_getOrCreate_self (r : CircuitBreakerRegistry) (host : String) :
    (getOrCreate r host).2.load host = some (getOrCreate r host).1 := by
  unfold getOrCreate
  cases hl : r.load host with
  | some cb => simp [hl]
  | none =>
    simp [hl, CircuitBreakerRegistry.load]

/-- A registered breaker survives any later `GetOrCreate` call unchanged. -/
theorem load_persist (r : CircuitBreakerRegistry) (h h2 : String)
    (cb : CircuitBreaker) (hl : r.load h = some cb) :
    (getOrCreate r h2).2.load h = some cb := by
  unfold getOrCreate
  cases hl2 : r.load h2 with
  | some cb2 => simpa [hl2] using hl
  | none =>
    have hne : h2 ≠ h := by
      rintro rfl
      rw [hl] at hl2
      cases hl2
    simp only [hl2]
    unfold CircuitBreakerRegistry.load at hl ⊢
    rw [List.find?_cons_of_neg]
    · exact hl
    · simp [hne]

/-- A registered breaker survives any call history unchanged. -/
theorem load_runCalls_persist (hs : List String) (r : CircuitBreakerRegistry)
    (h : String) (cb : CircuitBreaker) (hl : r.load h = some cb) :
    (runCalls r hs).load h = some cb := by
  induction hs generalizing r with
  | nil => exact hl
  | cons h2 hs ih => exact ih _ (load_persist r h h2 cb hl)

/-- `GetOrCreate` on an already-registered host returns the stored breaker. -/
theorem getOrCreate_of_load (r : CircuitBreakerRegistry) (h : String)
    (cb : CircuitBreaker) (hl : r.load h = some cb) :
    (getOrCreate r h).1 = cb := by
  unfold getOrCreate
  simp [hl]

/-- `GetOrCreate` preserves the name invariant. -/
theorem nameInv_getOrCreate (r : CircuitBreakerRegistry) (h : String)
    (hinv : NameInv r) : NameInv (getOrCreate r h).2 := by
  unfold getOrCreate
  cases hl : r.load h with
  | some cb => exact hinv
  | none =>
    intro kv hkv
    rcases List.mem_cons.mp hkv with hhead | htail
    · rw [hhead]
    · exact hinv kv htail

/-- Call histories preserve the name invariant. -/
theorem nameInv_runCalls (hs : List String) (r : CircuitBreakerRegistry)
    (hinv : NameInv r) : NameInv (runCalls r hs) := by
  induction hs generalizing r with
  | nil => exact hinv
  | cons h hs ih => exact ih _ (nameInv_getOrCreate r h hinv)

/-- Under the name invariant, the breaker returned by `GetOrCreate` is
named after its host. -/
theorem getOrCreate_name (r : CircuitBreakerRegistry) (h : String)
    (hinv : NameInv r) : (getOrCreate r h).1.name = h := by
  unfold getOrCreate
  cases hl : r.load h with
  | none => simp
  | some cb =>
    simp only
    unfold CircuitBreakerRegistry.load at hl
    obtain ⟨kv, hfind, hcb⟩ := Option.map_eq_some'.mp hl
    have hmem := List.mem_of_find?_eq_some hfind
    have hkey := List.find?_some hfind
    rw [← hcb, hinv kv hmem]
    exact beq_iff_eq.mp hkey

/-- C9: `GetOrCreate` is idempotent per host.  Over any registry reachable
from the fresh one by a history of calls: a later call for the same host —
with any further calls in between — returns the identical breaker instance
as the first call (first write wins, later callers attach); the returned
breaker is named after its host; and calls for two distinct hosts return
distinct breaker instances. -/
theorem getOrCreate_idempotent_per_host (hs hs2 : List String)
    (h h1 h2 : String) :
    ((getOrCreate (runCalls (getOrCreate (runCalls emptyRegistry hs) h).2 hs2) h).1 =
      (getOrCreate (runCalls emptyRegistry hs) h).1) ∧
    ((getOrCreate (runCalls emptyRegistry hs) h).1.name = h) ∧
    (h1 ≠ h2 →
      (getOrCreate (runCalls emptyRegistry hs) h1).1 ≠
        (getOrCreate (runCalls emptyRegistry hs) h2).1) := by
  have hinv : NameInv (runCalls emptyRegistry hs) := by
    refine nameInv_runCalls hs emptyRegistry ?_
    intro kv hkv
    simp [emptyRegistry] at hkv
  refine ⟨?_, getOrCreate_name _ h hinv, ?_⟩
  · exact getOrCreate_of_load _ h _
      (load_runCalls_persist hs2 _ h _
        (load_after_getOrCreate_self (runCalls emptyRegistry hs) h))
  · intro hne heq
    have n1 := getOrCreate_name (runCalls emptyRegistry hs) h1 hinv
    have n2 := getOrCreate_name (runCalls emptyRegistry hs) h2 hinv
    rw [heq] at n1
    exact hne (n1.symm.trans n2)

/-- Witness for C9: with history `["a.example"]`, a repeat call for
`"a.example"` (after an intervening call for another host) returns the same
instance, and calls for the two distinct hosts return distinct instances. -/
theorem getOrCreate_idempotent_per_host_witness :
    ((getOrCreate (runCalls (getOrCreate (runCalls emptyRegistry ["a.example"])
        "a.example").2 ["b.example"]) "a.example").1 =
      (getOrCreate (runCalls emptyRegistry ["a.example"]) "a.example").1) ∧
    ((getOrCreate (runCalls emptyRegistry ["a.example"]) "a.example").1 ≠
      (getOrCreate (runCalls emptyRegistry ["a.example"]) "b.example").1) := by
  have h := getOrCreate_idempotent_per_host ["a.example"] ["b.example"]
    "a.example" "a.example" "b.example"
  exact ⟨h.1, h.2.2 (by decide)⟩

/-- `recordErr` only touches the cancellation flag and the first error. -/
theorem recordErr_a (g : GroupState) (e : Option String) :
    (recordErr g e).a = g.a := by
  cases e <;> rfl

/-- `recordErr` only touches the cancellation flag and the first error. -/
theorem recordErr_b (g : GroupState) (e : Option String) :
    (recordErr g e).b = g.b := by
  cases e <;> rfl

/-- A turn for the email unit leaves the push unit untouched. -/
theorem stepGroup_true_b (g : GroupState) : (stepGroup g true).b = g.b := by
  rw [stepGroup, recordErr_b]

/-- A turn for the push unit leaves the email unit untouched. -/
theorem stepGroup_false_a (g : GroupState) : (stepGroup g false).a = g.a := by
  rw [stepGroup, recordErr_a]

/-- One unit turn either reports no error and preserves errored-ness, or
reports an error and leaves the unit errored. -/
theorem stepUnit_cases (c : Bool) (u : UnitState) :
    ((stepUnit c u).2 = none ∧ (stepUnit c u).1.errored = u.errored) ∨
    ((stepUnit c u).2.isSome = true ∧ (stepUnit c u).1.errored = true) := by
  obtain ⟨pending, result⟩ := u
  cases result with
  | some r => exact Or.inl ⟨rfl, rfl⟩
  | none =>
    cases pending with
    | nil => exact Or.inl ⟨rfl, rfl⟩
    | cons op rest =>
      cases ho : op c with
      | none =>
        refine Or.inl ⟨?_, ?_⟩
        · simp [stepUnit, ho]
        · simp only [stepUnit, ho]
          rfl
      | some e =>
        refine Or.inr ⟨?_, ?_⟩ <;> simp [stepUnit, ho, UnitState.errored]

/-- A finished unit is not stepped again. -/
theorem stepUnit_finished (c : Bool) (u : UnitState) (h : u.finished = true) :
    stepUnit c u = (u, none) := by
  obtain ⟨pending, result⟩ := u
  cases result with
  | some r => rfl
  | none => simp [UnitState.finished] at h

/-- The group invariant holds initially. -/
theorem groupInv_init (aOps bOps : List Op) : GroupInv (initGroup aOps bOps) := by
  exact ⟨rfl, rfl⟩

/-- The group invariant is preserved by every scheduler turn. -/
theorem groupInv_step (g : GroupState) (side : Bool) (hinv : GroupInv g) :
    GroupInv (stepGroup g side) := by
  obtain ⟨hc, hf⟩ := hinv
  cases side
  · rcases stepUnit_cases g.cancelled g.b with ⟨h2, herr⟩ | ⟨h2, herr⟩
    · rw [stepGroup, h2]
      refine ⟨hc, ?_⟩
      show g.firstErr.isSome =
        (g.a.errored || (stepUnit g.cancelled g.b).1.errored)
      rw [herr]
      exact hf
    · obtain ⟨e, he⟩ := Option.isSome_iff_exists.mp h2
      rw [stepGroup, he]
      constructor
      · cases hfe : g.firstErr <;> simp [recordErr, hfe]
      · cases hfe : g.firstErr <;> simp [recordErr, hfe, herr]
  · rcases stepUnit_cases g.cancelled g.a with ⟨h2, herr⟩ | ⟨h2, herr⟩
    · rw [stepGroup, h2]
      refine ⟨hc, ?_⟩
      show g.firstErr.isSome =
        ((stepUnit g.cancelled g.a).1.errored || g.b.errored)
      rw [herr]
      exact hf
    · obtain ⟨e, he⟩ := Option.isSome_iff_exists.mp h2
      rw [stepGroup, he]
      constructor
      · cases hfe : g.firstErr <;> simp [recordErr, hfe]
      · cases hfe : g.firstErr <;> simp [recordErr, hfe, herr]

/-- The group invariant holds after any schedule. -/
theorem groupInv_run (sched : List Bool) (g : GroupState) (hinv : GroupInv g) :
    GroupInv (runSchedule g sched) := by
  induction sched generalizing g with
  | nil => exact hinv
  | cons s rest ih => exact ih _ (groupInv_step g s hinv)

/-- A finished email unit stays finished, whatever the scheduler does. -/
theorem runSchedule_a_finished (sched : List Bool) (g : GroupState)
    (h : g.a.finished = true) : (runSchedule g sched).a.finished = true := by
  induction sched generalizing g with
  | nil => exact h
  | cons s rest ih =>
    refine ih _ ?_
    cases s
    · rw [stepGroup_false_a]
      exact h
    · rw [stepGroup, recordErr_a]
      show (stepUnit g.cancelled g.a).1.finished = true
      rw [stepUnit_finished g.cancelled g.a h]
      exact h

/-- A finished push unit stays finished, whatever the scheduler does. -/
theorem runSchedule_b_finished (sched : List Bool) (g : GroupState)
    (h : g.b.finished = true) : (runSchedule g sched).b.finished = true := by
  induction sched generalizing g with
  | nil => exact h
  | cons s rest ih =>
    refine ih _ ?_
    cases s
    · rw [stepGroup, recordErr_b]
      show (stepUnit g.cancelled g.b).1.finished = true
      rw [stepUnit_finished g.cancelled g.b h]
      exact h
    · rw [stepGroup_true_b]
      exact h

/-- Email-only turns leave the push unit untouched. -/
theorem runSchedule_replicate_true_b (n : Nat) (g : GroupState) :
    (runSchedule g (List.replicate n true)).b = g.b := by
  induction n generalizing g with
  | zero => rfl
  | succ n ih =>
    rw [List.replicate_succ]
    show (runSchedule (stepGroup g true) (List.replicate n true)).b = g.b
    rw [ih, stepGroup_true_b]

/-- Enough consecutive email turns run the email unit to completion. -/
theorem replicate_true_finishes_a (n : Nat) (g : GroupState)
    (h : g.a.pending.length < n) :
    (runSchedule g (List.replicate n true)).a.finished = true := by
  induction n generalizing g with
  | zero => omega
  | succ n ih =>
    rw [List.replicate_succ]
    show (runSchedule (stepGroup g true) (List.replicate n true)).a.finished = true
    cases hres : g.a.result with
    | some r =>
      refine runSchedule_a_finished _ _ ?_
      rw [stepGroup, recordErr_a]
      show (stepUnit g.cancelled g.a).1.finished = true
      have hfin : g.a.finished = true := by simp [UnitState.finished, hres]
      rw [stepUnit_finished g.cancelled g.a hfin]
      exact hfin
    | none =>
      cases hp : g.a.pending with
      | nil =>
        refine runSchedule_a_finished _ _ ?_
        rw [stepGroup, recordErr_a]
        show (stepUnit g.cancelled g.a).1.finished = true
        simp [stepUnit, hres, hp, UnitState.finished]
      | cons op rest =>
        cases ho : op g.cancelled with
        | some e =>
          refine runSchedule_a_finished _ _ ?_
          rw [stepGroup, recordErr_a]
          show (stepUnit g.cancelled g.a).1.finished = true
          simp [stepUnit, hres, hp, ho, UnitState.finished]
        | none =>
          refine ih _ ?_
          rw [stepGroup, recordErr_a]
          show (stepUnit g.cancelled g.a).1.pending.length < n
          have : (stepUnit g.cancelled g.a).1.pending = rest := by
            simp [stepUnit, hres, hp, ho]
          rw [this]
          rw [hp] at h
          simp at h
          omega

/-- Enough consecutive push turns run the push unit to completion. -/
theorem replicate_false_finishes_b (n : Nat) (g : GroupState)
    (h : g.b.pending.length < n) :
    (runSchedule g (List.replicate n false)).b.finished = true := by
  induction n generalizing g with
  | zero => omega
  | succ n ih =>
    rw [List.replicate_succ]
    show (runSchedule (stepGroup g false) (List.replicate n false)).b.finished = true
    cases hres : g.b.result with
    | some r =>
      refine runSchedule_b_finished _ _ ?_
      rw [stepGroup, recordErr_b]
      show (stepUnit g.cancelled g.b).1.finished = true
      have hfin : g.b.finished = true := by simp [UnitState.finished, hres]
      rw [stepUnit_finished g.cancelled g.b hfin]
      exact hfin
    | none =>
      cases hp : g.b.pending with
      | nil =>
        refine runSchedule_b_finished _ _ ?_
        rw [stepGroup, recordErr_b]
        show (stepUnit g.cancelled g.b).1.finished = true
        simp [stepUnit, hres, hp, UnitState.finished]
      | cons op rest =>
        cases ho : op g.cancelled with
        | some e =>
          refine runSchedule_b_finished _ _ ?_
          rw [stepGroup, recordErr_b]
          show (stepUnit g.cancelled g.b).1.finished = true
          simp [stepUnit, hres, hp, ho, UnitState.finished]
        | none =>
          refine ih _ ?_
          rw [stepGroup, recordErr_b]
          show (stepUnit g.cancelled g.b).1.pending.length < n
          have : (stepUnit g.cancelled g.b).1.pending = rest := by
            simp [stepUnit, hres, hp, ho]
          rw [this]
          rw [hp] at h
          simp at h
          omega

/-- A finished, non-errored unit returned nil. -/
theorem finished_not_errored (u : UnitState) (hfin : u.finished = true)
    (herr : u.errored = false) : u.result = some none := by
  obtain ⟨pending, result⟩ := u
  cases result with
  | none => simp [UnitState.finished] at hfin
  | some r =>
    cases r with
    | none => rfl
    | some e => simp [UnitState.errored] at herr

/-- Schedules compose. -/
theorem runSchedule_append (g : GroupState) (s1 s2 : List Bool) :
    runSchedule g (s1 ++ s2) = runSchedule (runSchedule g s1) s2 := by
  induction s1 generalizing g with
  | nil => rfl
  | cons s rest ih => exact ih (stepGroup g s)

/-- C2 counterexample: the same two `SendToSeller` goroutine bodies — an
email unit whose resolve fails, and a push unit whose resolve consults the
shared context and fails with `"context canceled"` exactly when that
context has been cancelled — end differently depending only on which unit
the scheduler runs first.  When the email failure comes first, the
push unit's in-flight resolve observes the cancelled group context and
fails with the cancellation error; scheduled the other way round, the push
unit completes successfully.  So a failure in one channel does, by itself,
cancel the in-flight sibling channel (`errgroup.WithContext` cancels the
derived context on the first error).  `Wait`'s error is the email error in
both runs, and the cancellation flag is set. -/
theorem sendToSeller_sibling_cancellation_counterexample :
    (sendToSeller (fun _ => some "email: record not found") (fun _ => none)
        (fun c => if c then some "context canceled" else none) (fun _ => none)
        [true, false, false, false]).b.result = some (some "context canceled") ∧
    (sendToSeller (fun _ => some "email: record not found") (fun _ => none)
        (fun c => if c then some "context canceled" else none) (fun _ => none)
        [false, false, false, true]).b.result = some none ∧
    (sendToSeller (fun _ => some "email: record not found") (fun _ => none)
        (fun c => if c then some "context canceled" else none) (fun _ => none)
        [true, false, false, false]).firstErr = some "email: record not found" ∧
    (sendToSeller (fun _ => some "email: record not found") (fun _ => none)
        (fun c => if c then some "context canceled" else none) (fun _ => none)
        [true, false, false, false]).cancelled = true := by
  refine ⟨rfl, rfl, rfl, rfl⟩

/-- C2 amended: `SendToSeller` runs the email and push channels as two
concurrent units joined by `Wait`: under the canonical completing schedule
both units run to completion whatever their outcomes, and `Wait` returns
nil exactly when both units returned nil — otherwise the call fails with
the first error encountered among the two.  But under every schedule the
derived group context is cancelled exactly when a first error has been
captured, so a failure in one channel does cancel the in-flight sibling's
context (its later context-observing operations see cancellation). -/
theorem sendToSeller_fanout_joins_both_with_cancellation
    (eR eD pR pD : Op) :
    ((sendToSeller eR eD pR pD (fullSchedule [eR, eD] [pR, pD])).a.finished = true ∧
      (sendToSeller eR eD pR pD (fullSchedule [eR, eD] [pR, pD])).b.finished = true) ∧
    (groupWait (sendToSeller eR eD pR pD (fullSchedule [eR, eD] [pR, pD])) = none ↔
      ((sendToSeller eR eD pR pD (fullSchedule [eR, eD] [pR, pD])).a.result = some none ∧
        (sendToSeller eR eD pR pD (fullSchedule [eR, eD] [pR, pD])).b.result = some none)) ∧
    (∀ sched : List Bool,
      (sendToSeller eR eD pR pD sched).cancelled =
        (sendToSeller eR eD pR pD sched).firstErr.isSome) := by
  set g := sendToSeller eR eD pR pD (fullSchedule [eR, eD] [pR, pD]) with hg
  have hrun : g =
      runSchedule (runSchedule (initGroup [eR, eD] [pR, pD])
        (List.replicate 3 true)) (List.replicate 3 false) := by
    rw [hg, sendToSeller,
      show fullSchedule [eR, eD] [pR, pD] =
        List.replicate 3 true ++ List.replicate 3 false from rfl,
      runSchedule_append]
  have hafin : g.a.finished = true := by
    rw [hrun]
    refine runSchedule_a_finished _ _ ?_
    refine replicate_true_finishes_a 3 _ ?_
    show ([eR, eD] : List Op).length < 3
    simp
  have hbfin : g.b.finished = true := by
    rw [hrun]
    refine replicate_false_finishes_b 3 _ ?_
    rw [runSchedule_replicate_true_b]
    show ([pR, pD] : List Op).length < 3
    simp
  have hinv : GroupInv g :=
    groupInv_run _ _ (groupInv_init [eR, eD] [pR, pD])
  refine ⟨⟨hafin, hbfin⟩, ?_, ?_⟩
  · constructor
    · intro hnone
      have hsome : g.firstErr.isSome = false := by
        rw [groupWait] at hnone
        rw [hnone]
        rfl
      have horr : (g.a.errored || g.b.errored) = false := by
        rw [← hinv.2]
        exact hsome
      have herrs := Bool.or_eq_false_iff.mp horr
      exact ⟨finished_not_errored _ hafin herrs.1,
        finished_not_errored _ hbfin herrs.2⟩
    · intro hok
      have ha : g.a.errored = false := by
        simp [UnitState.errored, hok.1]
      have hb : g.b.errored = false := by
        simp [UnitState.errored, hok.2]
      have hfe : g.firstErr.isSome = false := by
        rw [hinv.2, ha, hb]
        rfl
      rw [groupWait]
      cases hopt : g.firstErr with
      | none => rfl
      | some e =>
        rw [hopt] at hfe
        cases hfe
  · intro sched
    exact (groupInv_run sched _ (groupInv_init [eR, eD] [pR, pD])).1

end NotificationService
